import Mathlib

set_option linter.unusedVariables false

/-!
A verification development for the diy-lisp evaluator
(`diylisp/evaluator.py`).

The evaluator is embedded shallowly:

* `SExp` is the AST/value type.  In the Python source, symbols are host
  strings, integers host ints, booleans host bools, lists host lists,
  closures instances of the `Closure` class, and the `define` form returns
  the host `None`; each becomes a constructor.
* Python environments are mutable objects sharing structure through parent
  references.  They are modelled by a store (`Store := List Env`) indexed
  by environment ids; a `Closure` and the evaluator refer to environments
  by id, `extend` appends a fresh environment to the store, and `set`
  updates one store entry in place.  `Environment` itself (`types.py`) is
  not part of the packaged source, so its operations `lookup`, `set` and
  `extend` are modelled from the spec (section 4.1).
* Recursion in `evaluate` is made total with an explicit fuel argument;
  running out of fuel is the distinguished outcome `Err.outOfFuel`, never
  identified with any error the program itself raises.
* Python exceptions are modelled by `Except Err SExp`; the store at the
  time an exception is raised is kept alongside, since mutations performed
  before a raise persist in the host.
-/

/-- AST values of the language: integers, booleans, symbols, lists,
closures, and the host `None` value returned by `define`.  A closure
holds the id of its captured environment, its parameter list (arbitrary
AST values, as in the source, which never validates them further) and its
unevaluated body. -/
inductive SExp where
  | int (n : Int)
  | bool (b : Bool)
  | symbol (s : String)
  | list (elems : List SExp)
  | closure (env : Nat) (params : List SExp) (body : SExp)
  | noneVal

/-- Modelled from the spec: an Environment (section 3, section 4.1; `types.py`
is not in the packaged source) is a mapping from symbols to values plus an
optional parent reference, here an id into the store. -/
structure Env where
  bindings : List (String × SExp)
  parent : Option Nat

/-- The heap of environment objects; environment ids are list indices. -/
abbrev Store := List Env

/-- Evaluation errors.  Every `raise LispError(msg)` site in
`evaluator.py` is mirrored by a structured constructor or by `lisp` with
the exact message string; `unboundSymbol` models the lookup failure of the
(spec-modelled) Environment; `zeroDivision` and `coercion` model the host
exceptions escaping `evalArithmeticCommand`; `outOfFuel` is an artefact of
the fuel-based embedding. -/
inductive Err where
  | outOfFuel
  | unboundSymbol (s : String)
  | lisp (msg : String)
  | arity (expected passed : Nat)
  | invalidAst (ast : SExp)
  | zeroDivision
  | coercion

/-- Result of one evaluation: the value or the exception, together with
the store as left behind (mutations made before a raise persist). -/
abbrev Res := Except Err SExp × Store

/-- Modelled from the spec: classification predicate `is_symbol`
(`ast.py` is not in the packaged source). -/
def is_symbol : SExp → Bool
  | .symbol _ => true
  | _ => false

/-- Modelled from the spec: classification predicate `is_boolean`. -/
def is_boolean : SExp → Bool
  | .bool _ => true
  | _ => false

/-- Modelled from the spec: classification predicate `is_integer`. -/
def is_integer : SExp → Bool
  | .int _ => true
  | _ => false

/-- Modelled from the spec: classification predicate `is_list`. -/
def is_list : SExp → Bool
  | .list _ => true
  | _ => false

/-- Modelled from the spec: classification predicate `is_closure`. -/
def is_closure : SExp → Bool
  | .closure _ _ _ => true
  | _ => false

/-- Modelled from the spec: atoms are exactly Integer, Boolean and Symbol
(section 3 invariant and glossary). -/
def is_atom (x : SExp) : Bool :=
  is_symbol x || is_integer x || is_boolean x

mutual

/-- Structural equality of values, the Python `==` used by `eq` on line
99 (spec section 4.4: "structural equality of the two evaluated
results"). -/
def SExp.beq : SExp → SExp → Bool
  | .int a, .int b => a == b
  | .bool a, .bool b => a == b
  | .symbol a, .symbol b => a == b
  | .list xs, .list ys => SExp.beqList xs ys
  | .closure e1 p1 b1, .closure e2 p2 b2 =>
      e1 == e2 && SExp.beqList p1 p2 && SExp.beq b1 b2
  | .noneVal, .noneVal => true
  | _, _ => false

/-- Elementwise structural equality of value lists. -/
def SExp.beqList : List SExp → List SExp → Bool
  | [], [] => true
  | x :: xs, y :: ys => SExp.beq x y && SExp.beqList xs ys
  | _, _ => false

end

/-- Lookup in one bindings map (Python dict access by string key). -/
def bfind : List (String × SExp) → String → Option SExp
  | [], _ => none
  | (k, w) :: rest, s => if k = s then some w else bfind rest s

/-- Overwriting insertion into one bindings map (Python dict assignment). -/
def bset : List (String × SExp) → String → SExp → List (String × SExp)
  | [], s, v => [(s, v)]
  | (k, w) :: rest, s, v =>
      if k = s then (s, v) :: rest else (k, w) :: bset rest s v

/-- Modelled from the spec: `Environment.lookup` walks the parent chain
(section 4.1).  The extra `Nat` argument bounds the walk; callers pass the
store size, which covers every acyclic chain (and every store the
evaluator itself builds is acyclic, since `extend` only points a fresh
environment at an existing one). -/
def lookupEnv (st : Store) : Nat → Nat → String → Option SExp
  | 0, _, _ => none
  | fl + 1, e, s =>
      match st.get? e with
      | none => none
      | some en =>
          match bfind en.bindings s with
          | some v => some v
          | none =>
              match en.parent with
              | some p => lookupEnv st fl p s
              | none => none

/-- Modelled from the spec: `Environment.set` inserts or overwrites in the
local bindings of the environment with id `e` only; the parent link is
untouched (section 4.1). -/
def storeSet (st : Store) (e : Nat) (s : String) (v : SExp) : Store :=
  match st.get? e with
  | some en => st.set e ⟨bset en.bindings s v, en.parent⟩
  | none => st

/-- Python's `dict(zip(params, vals))`: left-to-right insertion with later
duplicate keys overwriting earlier ones.  Parameters are expected to be
symbols (spec section 4.2); a non-symbol parameter is skipped, since a
string-keyed lookup can never retrieve it. -/
def dictOfZip (ps vs : List SExp) : List (String × SExp) :=
  (List.zip ps vs).foldl
    (fun acc pv =>
      match pv.1 with
      | .symbol s => bset acc s pv.2
      | _ => acc) []

/-- Python truthiness of a value, as used by `if predicate:` on line 107
of `evaluator.py`. -/
def truthy : SExp → Bool
  | .int n => n ≠ 0
  | .bool b => b
  | .symbol s => s ≠ ""
  | .list l => !l.isEmpty
  | .closure _ _ _ => true
  | .noneVal => false

/-- Python 2 `int(...)` as applied to evaluated operands on lines 138-139
of `evaluator.py`: the identity on integers, 1/0 on booleans; any other
operand is modelled as the coercion failure that escapes the handler
(symbols are host strings, so a numeric-literal symbol would parse in the
host, but no reachable program produces one as an arithmetic operand). -/
def toInt : SExp → Except Err Int
  | .int n => .ok n
  | .bool b => .ok (if b then 1 else 0)
  | _ => .error .coercion

/-- Line 17 of `evaluator.py`: the special forms. -/
def specialForms : List String :=
  ["quote", "atom", "eq", "if", "define", "lambda", "print"]

/-- Line 18 of `evaluator.py`: the arithmetic operators. -/
def arithmeticOps : List String :=
  ["+", "-", "*", "/", "mod", ">", "<"]

/-- Line 19 of `evaluator.py`: the list operators. -/
def listOps : List String :=
  ["cons", "head", "tail", "empty"]

/-- Line 20 of `evaluator.py`: the full command set. -/
def commands : List String :=
  specialForms ++ arithmeticOps ++ listOps

/-- The type of the recursive evaluator passed to the per-form handlers:
AST, environment id, store in; result out. -/
abbrev EvalFn := SExp → Nat → Store → Res

/-- `evalQuoteCommand` (lines 83-87): exactly one argument, returned raw. -/
def evalQuoteCommand (args : List SExp) (env : Nat) (st : Store) : Res :=
  match args with
  | [a] => (.ok a, st)
  | _ => (.error (.lisp "quote command expects exactly one argument"), st)

/-- `evalAtomCommand` (lines 89-93): exactly one argument; the result is
`is_atom` of the raw argument AST — the source does not evaluate it. -/
def evalAtomCommand (args : List SExp) (env : Nat) (st : Store) : Res :=
  match args with
  | [a] => (.ok (.bool (is_atom a)), st)
  | _ => (.error (.lisp "atom command expects exactly one argument"), st)

/-- `evalEqCommand` (lines 95-99): evaluate both arguments left to right,
compare structurally. -/
def evalEqCommand (ev : EvalFn) (args : List SExp) (env : Nat) (st : Store) : Res :=
  match args with
  | [a, b] =>
      match ev a env st with
      | (.ok v1, st1) =>
          match ev b env st1 with
          | (.ok v2, st2) => (.ok (.bool (SExp.beq v1 v2)), st2)
          | (.error er, st2) => (.error er, st2)
      | (.error er, st1) => (.error er, st1)
  | _ => (.error (.lisp "eq command expects exactly two arguments"), st)

/-- `evalIfCommand` (lines 101-110): evaluate the predicate, then exactly
one branch, chosen by host truthiness. -/
def evalIfCommand (ev : EvalFn) (args : List SExp) (env : Nat) (st : Store) : Res :=
  match args with
  | [p, t, e] =>
      match ev p env st with
      | (.ok pv, st1) => if truthy pv then ev t env st1 else ev e env st1
      | (.error er, st1) => (.error er, st1)
  | _ => (.error (.lisp "if command expects exactly three arguments"), st)

/-- `evalDefineCommand` (lines 112-121): two arguments, the first a
symbol; the second is evaluated and bound in the current environment via
`set`; the host `None` is returned. -/
def evalDefineCommand (ev : EvalFn) (args : List SExp) (env : Nat) (st : Store) : Res :=
  match args with
  | [a, e] =>
      match a with
      | .symbol name =>
          match ev e env st with
          | (.ok v, st1) => (.ok .noneVal, storeSet st1 env name v)
          | (.error er, st1) => (.error er, st1)
      | _ => (.error (.lisp "define command expects a symbol as parameter 1"), st)
  | _ => (.error (.lisp "define command expects exactly two arguments"), st)

/-- `evalPrintCommand` (lines 123-131): evaluate the argument and return
it; the write to standard output is not modelled. -/
def evalPrintCommand (ev : EvalFn) (args : List SExp) (env : Nat) (st : Store) : Res :=
  match args with
  | [a] => ev a env st
  | _ => (.error (.lisp "print command expects exactly one arguments"), st)

/-- `evalArithmeticCommand` (lines 133-158): evaluate and coerce both
operands in order, then apply the operator.  Python 2 `/` on ints is
floor division and `%` is floor remainder, hence `Int.fdiv`/`Int.fmod`;
the host raises on a zero divisor, modelled by `Err.zeroDivision`. -/
def evalArithmeticCommand (ev : EvalFn) (command : String) (args : List SExp)
    (env : Nat) (st : Store) : Res :=
  match args with
  | [a, b] =>
      match ev a env st with
      | (.ok v1, st1) =>
          match toInt v1 with
          | .error er => (.error er, st1)
          | .ok x =>
              match ev b env st1 with
              | (.ok v2, st2) =>
                  match toInt v2 with
                  | .error er => (.error er, st2)
                  | .ok y =>
                      if command = "+" then (.ok (.int (x + y)), st2)
                      else if command = "-" then (.ok (.int (x - y)), st2)
                      else if command = "*" then (.ok (.int (x * y)), st2)
                      else if command = "/" then
                        if y = 0 then (.error .zeroDivision, st2)
                        else (.ok (.int (Int.fdiv x y)), st2)
                      else if command = "mod" then
                        if y = 0 then (.error .zeroDivision, st2)
                        else (.ok (.int (Int.fmod x y)), st2)
                      else if command = ">" then (.ok (.bool (decide (y < x))), st2)
                      else if command = "<" then (.ok (.bool (decide (x < y))), st2)
                      else (.error (.lisp "Invalid arithmetic command"), st2)
              | (.error er, st2) => (.error er, st2)
      | (.error er, st1) => (.error er, st1)
  | _ => (.error (.lisp (command ++ " command expects exactly two arguments")), st)

/-- `evalLambdaCommand` (lines 160-174): two arguments, the first a list.
An empty parameter list short-circuits: the body is evaluated at once in
the current environment and its result returned; otherwise a closure
capturing the current environment id is built. -/
def evalLambdaCommand (ev : EvalFn) (args : List SExp) (env : Nat) (st : Store) : Res :=
  match args with
  | [p, body] =>
      match p with
      | .list ps =>
          if ps.isEmpty then ev body env st
          else (.ok (.closure env ps body), st)
      | _ => (.error (.lisp "lambda first parameter is expected to be a list"), st)
  | _ => (.error (.lisp "lambda command expects exactly two arguments"), st)

/-- The `map(lambda p: evaluate(p, env), params)` on line 183: evaluate
the argument expressions left to right in the caller environment,
threading the store. -/
def evalArgs (ev : EvalFn) : List SExp → Nat → Store → Except Err (List SExp) × Store
  | [], _, st => (.ok [], st)
  | a :: rest, env, st =>
      match ev a env st with
      | (.ok v, st1) =>
          match evalArgs ev rest env st1 with
          | (.ok vs, st2) => (.ok (v :: vs), st2)
          | (.error er, st2) => (.error er, st2)
      | (.error er, st1) => (.error er, st1)

/-- `evalClosure` (lines 176-185): reject a non-closure, check arity
(reporting expected and passed counts), evaluate the arguments in the
caller environment, extend the environment captured by the closure with
the parameters bound pairwise, and evaluate the body there.  The fresh
environment is appended to the store, its id being the old store size. -/
def evalClosure (ev : EvalFn) (closure : SExp) (params : List SExp)
    (env : Nat) (st : Store) : Res :=
  match closure with
  | .closure cenv cparams body =>
      if cparams.length ≠ params.length then
        (.error (.arity cparams.length params.length), st)
      else
        match evalArgs ev params env st with
        | (.ok vs, st1) =>
            ev body st1.length (st1 ++ [⟨dictOfZip cparams vs, some cenv⟩])
        | (.error er, st1) => (.error er, st1)
  | _ => (.error (.lisp "Expect a function closure"), st)

/-- `evalConsCommand` (lines 200-213): evaluate both arguments; the
second must be a list; prepend. -/
def evalConsCommand (ev : EvalFn) (args : List SExp) (env : Nat) (st : Store) : Res :=
  match args with
  | [a, b] =>
      match ev a env st with
      | (.ok hd, st1) =>
          match ev b env st1 with
          | (.ok rest, st2) =>
              match rest with
              | .list l => (.ok (.list (hd :: l)), st2)
              | _ => (.error (.lisp "cons command expects a list as second argument"), st2)
          | (.error er, st2) => (.error er, st2)
      | (.error er, st1) => (.error er, st1)
  | _ => (.error (.lisp "cons command expects exactly two arguments"), st)

/-- `evalHeadCommand` (lines 215-227): evaluate the argument; it must be
a non-empty list; return its first element. -/
def evalHeadCommand (ev : EvalFn) (args : List SExp) (env : Nat) (st : Store) : Res :=
  match args with
  | [a] =>
      match ev a env st with
      | (.ok v, st1) =>
          match v with
          | .list [] => (.error (.lisp "head command expect non-empty list"), st1)
          | .list (h :: _) => (.ok h, st1)
          | _ => (.error (.lisp "head command expects a list as argument"), st1)
      | (.error er, st1) => (.error er, st1)
  | _ => (.error (.lisp "head command expects exactly one argument"), st)

/-- `evalTailCommand` (lines 229-241): evaluate the argument; it must be
a non-empty list; return it minus its first element. -/
def evalTailCommand (ev : EvalFn) (args : List SExp) (env : Nat) (st : Store) : Res :=
  match args with
  | [a] =>
      match ev a env st with
      | (.ok v, st1) =>
          match v with
          | .list [] => (.error (.lisp "tail command expect non-empty list"), st1)
          | .list (_ :: t) => (.ok (.list t), st1)
          | _ => (.error (.lisp "tail command expects a list as argument"), st1)
      | (.error er, st1) => (.error er, st1)
  | _ => (.error (.lisp "tail command expects exactly one argument"), st)

/-- `evalEmptyCommand` (lines 243-253): evaluate the argument; it must be
a list; report whether it has zero elements.  The source reuses the
"tail" wording in this handler's error messages; the strings are kept
verbatim. -/
def evalEmptyCommand (ev : EvalFn) (args : List SExp) (env : Nat) (st : Store) : Res :=
  match args with
  | [a] =>
      match ev a env st with
      | (.ok v, st1) =>
          match v with
          | .list l => (.ok (.bool l.isEmpty), st1)
          | _ => (.error (.lisp "tail command expects a list as argument"), st1)
      | (.error er, st1) => (.error er, st1)
  | _ => (.error (.lisp "tail command expects exactly one argument"), st)

/-- `evalListCommand` (lines 188-198): dispatch among the list operators. -/
def evalListCommand (ev : EvalFn) (command : String) (args : List SExp)
    (env : Nat) (st : Store) : Res :=
  if command = "cons" then evalConsCommand ev args env st
  else if command = "head" then evalHeadCommand ev args env st
  else if command = "tail" then evalTailCommand ev args env st
  else if command = "empty" then evalEmptyCommand ev args env st
  else (.error (.lisp "Invalid list command"), st)

/-- `evalCommand` (lines 63-81): dispatch a recognized leading symbol to
its handler.  The final case mirrors the Python function falling off the
end and implicitly returning `None`; it is unreachable, since the caller
guards with membership in `commands`. -/
def evalCommand (ev : EvalFn) (command : String) (args : List SExp)
    (env : Nat) (st : Store) : Res :=
  if command = "quote" then evalQuoteCommand args env st
  else if command = "atom" then evalAtomCommand args env st
  else if command = "eq" then evalEqCommand ev args env st
  else if command = "if" then evalIfCommand ev args env st
  else if command = "define" then evalDefineCommand ev args env st
  else if command = "lambda" then evalLambdaCommand ev args env st
  else if command = "print" then evalPrintCommand ev args env st
  else if arithmeticOps.contains command then evalArithmeticCommand ev command args env st
  else if listOps.contains command then evalListCommand ev command args env st
  else (.ok .noneVal, st)

/-- The body of `evaluate` (lines 22-61), parameterized by the recursive
call `ev`.  Dispatch order follows the source: symbol lookup;
self-evaluating booleans and integers; a bare closure applied to an empty
argument list; a non-empty list dispatched on its head (command, symbol
resolved to a closure and the list re-evaluated with the head replaced,
closure head, or an evaluated head — where the source passes the raw
`first`, not its evaluated result, to `evalClosure`, and otherwise
evaluates the tail, or returns the head's value when the tail is empty);
anything else, including the empty list, is an invalid AST. -/
def evalBody (ev : EvalFn) (ast : SExp) (env : Nat) (st : Store) : Res :=
  match ast with
  | .symbol s =>
      match lookupEnv st st.length env s with
      | some v => (.ok v, st)
      | none => (.error (.unboundSymbol s), st)
  | .bool _ => (.ok ast, st)
  | .int _ => (.ok ast, st)
  | .closure _ _ _ => evalClosure ev ast [] env st
  | .list (first :: rest) =>
      match first with
      | .symbol s =>
          if commands.contains s then evalCommand ev s rest env st
          else
            match lookupEnv st st.length env s with
            | none => (.error (.unboundSymbol s), st)
            | some func =>
                if is_closure func then ev (.list (func :: rest)) env st
                else (.error (.lisp ("Symbol " ++ s ++ " must evaluate to a function")), st)
      | .closure _ _ _ => evalClosure ev first rest env st
      | _ =>
          match ev first env st with
          | (.ok firstEval, st1) =>
              if is_closure firstEval then evalClosure ev first rest env st1
              else if rest.isEmpty then (.ok firstEval, st1)
              else ev (.list rest) env st1
          | (.error er, st1) => (.error er, st1)
  | _ => (.error (.invalidAst ast), st)

/-- `evaluate` (lines 22-61) with a fuel argument making the recursion
structural; each recursive call of the source consumes one unit. -/
def evaluate : Nat → SExp → Nat → Store → Res
  | 0, _, _, st => (.error .outOfFuel, st)
  | fuel + 1, ast, env, st => evalBody (fun a e s => evaluate fuel a e s) ast env st

/-- The round-trip expression `[cons, [head, L], [tail, L]]` of the spec's
section 8 property, for an arbitrary expression `L`. -/
def roundTripOf (L : SExp) : SExp :=
  .list [.symbol "cons", .list [.symbol "head", L], .list [.symbol "tail", L]]

/-- An expression with a side effect: `[define, x, [+, x, 1]]`
increments the binding of `x` in the current environment. -/
def defineIncX : SExp :=
  .list [.symbol "define", .symbol "x", .list [.symbol "+", .symbol "x", .int 1]]

/-- An expression whose value flips between evaluations: it increments
`x` (the head's value, the `None` of `define`, is discarded because the
tail is non-empty) and then yields the quoted list `[1]` when `x` is 1
and the quoted empty list otherwise.  Starting from `x = 0` it evaluates
to `[1]` the first time and to `[]` the second time. -/
def flipFlopList : SExp :=
  .list [defineIncX,
    .list [.symbol "if", .list [.symbol "eq", .symbol "x", .int 1],
      .list [.symbol "quote", .list [.int 1]],
      .list [.symbol "quote", .list []]]]

/-- The frame relation between a store before and after an evaluation in
environment `e`: the store only grows, every pre-existing environment
other than `e` is completely untouched, and even `e` keeps its parent
link (only its local bindings may change). -/
def Frame (e : Nat) (st st2 : Store) : Prop :=
  st.length ≤ st2.length
  ∧ (∀ i, i < st.length → i ≠ e → st2.get? i = st.get? i)
  ∧ (∀ i, i < st.length → (st2.get? i).map Env.parent = (st.get? i).map Env.parent)

/-- The frame property of an evaluator function: evaluating any AST in
any environment `e` from any store yields a store in the frame relation. -/
def FrameEv (ev : EvalFn) : Prop :=
  ∀ a e st, Frame e st (ev a e st).2

/-! ## Basic reduction lemmas -/

/-- One step of fuel peels off to the parameterized body. -/
theorem evaluate_succ (f : Nat) (ast : SExp) (env : Nat) (st : Store) :
    evaluate (f + 1) ast env st = evalBody (fun a e s => evaluate f a e s) ast env st := rfl

/-! ## Claims -/

/-- C9: evaluating the empty list as an AST fails with the catch-all
invalid-AST error for every environment and store: it is not
self-evaluating, is not dispatched as a command or application, and does
not produce an empty-list value. -/
theorem empty_list_invalid_ast (f : Nat) (env : Nat) (st : Store) :
    evaluate (f + 1) (.list []) env st = (.error (.invalidAst (.list [])), st) := rfl

/-- C1 (amended): the `atom` form does not evaluate its argument; for
every argument AST `x`, evaluating `[atom, x]` returns the boolean
`is_atom x` of the raw argument — true when `x` is itself an Integer,
Boolean or Symbol, false when it is a List or Closure — leaving the store
unchanged.  In particular, for a symbol `s` bound to a list the result is
true, not false. -/
theorem evalAtom_returns_rawArg_atomness (f : Nat) (x : SExp) (env : Nat) (st : Store) :
    evaluate (f + 1) (.list [.symbol "atom", x]) env st = (.ok (.bool (is_atom x)), st) := rfl

/-- C1 (counterexample): with the symbol `s` bound to the list `[1]`,
evaluating `[atom, s]` returns true, because the source checks
`is_atom` on the raw argument (a symbol) without evaluating it; the claim
as stated demands false. -/
theorem evalAtom_on_bound_symbol_returns_true :
    (evaluate 2 (.list [.symbol "atom", .symbol "s"]) 0
        [⟨[("s", SExp.list [.int 1])], none⟩]).1 = .ok (.bool true)
      ∧ SExp.bool true ≠ SExp.bool false := by
  refine ⟨rfl, ?_⟩
  intro h
  cases h

/-- C2: for a list AST whose head is itself a lambda form, the head
evaluates to a Closure, but line 54 of the source passes the raw,
unevaluated head to `evalClosure` instead of the evaluated result, so the
application branch always raises "Expect a function closure" instead of
applying the closure; `evaluate([[lambda, [x], x], 42], env)` fails
instead of returning 42. -/
theorem applyEvaluatedHead_always_fails :
    (evaluate 6 (.list [.list [.symbol "lambda", .list [.symbol "x"], .symbol "x"], .int 42])
        0 [⟨[], none⟩]).1 = .error (.lisp "Expect a function closure")
      ∧ (evaluate 5 (.list [.symbol "lambda", .list [.symbol "x"], .symbol "x"])
          0 [⟨[], none⟩]).1 = .ok (.closure 0 [.symbol "x"] (.symbol "x")) := ⟨rfl, rfl⟩

/-- C3: a lambda form with an empty parameter list does not build a
Closure; it evaluates its body immediately in the current environment and
returns that result, for every body, environment and store; in
particular `[lambda, [], [+, 1, 2]]` evaluates to the integer 3. -/
theorem lambda_noParams_evaluates_eagerly :
    (∀ (f : Nat) (b : SExp) (env : Nat) (st : Store),
      evaluate (f + 1) (.list [.symbol "lambda", .list [], b]) env st = evaluate f b env st)
    ∧ evaluate 4 (.list [.symbol "lambda", .list [], .list [.symbol "+", .int 1, .int 2]])
        0 [⟨[], none⟩] = (.ok (.int 3), [⟨[], none⟩]) :=
  ⟨fun _ _ _ _ => rfl, rfl⟩

/-- C10: a Closure value handed directly to `evaluate` is applied to an
empty argument list, so whenever its parameter list is non-empty (as for
every Closure the lambda form constructs: the constructing branch of
`evalLambdaCommand` copies a non-empty parameter list into the Closure,
and an empty parameter list is evaluated eagerly and never becomes a
Closure) the evaluation fails with the arity error reporting the
parameter count expected and 0 passed, leaving the store unchanged. -/
theorem bare_closure_arity_failure :
    (∀ (f : Nat) (ce : Nat) (ps : List SExp) (b : SExp) (env : Nat) (st : Store),
      ps ≠ [] →
      evaluate (f + 1) (.closure ce ps b) env st = (.error (.arity ps.length 0), st))
    ∧ (∀ (ev : EvalFn) (ps : List SExp) (b : SExp) (env : Nat) (st : Store),
      ps ≠ [] →
      evalLambdaCommand ev [.list ps, b] env st = (.ok (.closure env ps b), st)) := by
  constructor
  · intro f ce ps b env st hps
    cases ps with
    | nil => exact absurd rfl hps
    | cons p ps' => rfl
  · intro ev ps b env st hps
    cases ps with
    | nil => exact absurd rfl hps
    | cons p ps' => rfl

/-- C10 (witness): a one-parameter closure evaluated bare fails with the
arity error 1 expected, 0 passed; and the lambda form with one parameter
builds exactly that closure. -/
theorem bare_closure_arity_failure_witness :
    evaluate 3 (.closure 0 [.symbol "x"] (.symbol "x")) 0 [] = (.error (.arity 1 0), [])
    ∧ evalLambdaCommand (fun a e s => evaluate 2 a e s)
        [.list [.symbol "x"], .symbol "x"] 0 [] =
        (.ok (.closure 0 [.symbol "x"] (.symbol "x")), []) :=
  ⟨bare_closure_arity_failure.1 2 0 [.symbol "x"] (.symbol "x") 0 []
      (by simp),
   bare_closure_arity_failure.2 (fun a e s => evaluate 2 a e s)
      [.symbol "x"] (.symbol "x") 0 [] (by simp)⟩

/-- C4: the closure-application protocol.  When the parameter count of a
Closure differs from the number of argument expressions, the application
fails with the arity error reporting both counts and leaves the caller's
store — hence the caller environment — unchanged.  When the counts agree,
the argument expressions are evaluated in the caller environment, a fresh
environment extending the closure's captured environment (not the
caller's) is created with the parameters bound pairwise, and the body is
evaluated there. -/
theorem closure_application_protocol (f : Nat) (ce : Nat) (cparams : List SExp)
    (body : SExp) (args : List SExp) (env : Nat) (st : Store) :
    (cparams.length ≠ args.length →
      evalClosure (evaluate f) (.closure ce cparams body) args env st =
        (.error (.arity cparams.length args.length), st))
    ∧ (cparams.length = args.length →
      evalClosure (evaluate f) (.closure ce cparams body) args env st =
        match evalArgs (evaluate f) args env st with
        | (.ok vs, st1) =>
            evaluate f body st1.length (st1 ++ [⟨dictOfZip cparams vs, some ce⟩])
        | (.error er, st1) => (.error er, st1)) := by
  constructor
  · intro h
    simp only [evalClosure, if_pos h]
  · intro h
    simp only [evalClosure, h, ne_eq, not_true_eq_false, if_false, ite_false]

/-- C4 (witness): applying a one-parameter closure to no arguments yields
the arity error (1 expected, 0 passed) with the store untouched, and
applying it to the single literal 5 binds the parameter and returns 5. -/
theorem closure_application_protocol_witness :
    evalClosure (evaluate 1) (.closure 0 [.symbol "x"] (.symbol "x")) [] 0 [⟨[], none⟩] =
      (.error (.arity 1 0), [⟨[], none⟩])
    ∧ evalClosure (evaluate 1) (.closure 0 [.symbol "x"] (.symbol "x")) [.int 5] 0 [⟨[], none⟩] =
      (.ok (.int 5), [⟨[], none⟩, ⟨[("x", .int 5)], some 0⟩]) := by
  constructor
  · exact (closure_application_protocol 1 0 [.symbol "x"] (.symbol "x") [] 0
      [⟨[], none⟩]).1 (by simp)
  · exact ((closure_application_protocol 1 0 [.symbol "x"] (.symbol "x") [.int 5] 0
      [⟨[], none⟩]).2 (by simp)).trans rfl

/-- C6: for a non-empty list AST whose head `x` is neither a Symbol nor a
Closure, the head is evaluated first; when its value is not a Closure,
the whole list evaluates to the evaluation of the tail (as a list, in the
same environment, from the store the head's evaluation left behind) when
the tail is non-empty, discarding the head's value, and to the head's
value itself when the tail is empty. -/
theorem nonCallableHead_evaluates_tail (f : Nat) (x : SExp) (xs : List SExp)
    (env : Nat) (st : Store) (r : SExp) (st1 : Store)
    (hsym : is_symbol x = false) (hclo : is_closure x = false)
    (heval : evaluate f x env st = (.ok r, st1)) (hr : is_closure r = false) :
    evaluate (f + 1) (.list (x :: xs)) env st =
      if xs.isEmpty then (.ok r, st1) else evaluate f (.list xs) env st1 := by
  cases x with
  | symbol s => simp [is_symbol] at hsym
  | closure a b c => simp [is_closure] at hclo
  | int n =>
      rw [evaluate_succ]
      simp only [evalBody, heval, hr, Bool.false_eq_true, if_false, ite_false]
  | bool b =>
      rw [evaluate_succ]
      simp only [evalBody, heval, hr, Bool.false_eq_true, if_false, ite_false]
  | list l =>
      rw [evaluate_succ]
      simp only [evalBody, heval, hr, Bool.false_eq_true, if_false, ite_false]
  | noneVal =>
      rw [evaluate_succ]
      simp only [evalBody, heval, hr, Bool.false_eq_true, if_false, ite_false]

/-- C6 (witness): `[7, 8]` evaluates its head 7, discards it because the
tail is non-empty, and evaluates the tail `[8]`, giving 8; `[7]` returns
the head's value 7 itself. -/
theorem nonCallableHead_evaluates_tail_witness :
    evaluate 3 (.list [.int 7, .int 8]) 0 [] = (.ok (.int 8), [])
    ∧ evaluate 3 (.list [.int 7]) 0 [] = (.ok (.int 7), []) := by
  constructor
  · rw [nonCallableHead_evaluates_tail 2 (.int 7) [.int 8] 0 [] (.int 7) []
      rfl rfl rfl rfl]
    rfl
  · rw [nonCallableHead_evaluates_tail 2 (.int 7) [] 0 [] (.int 7) []
      rfl rfl rfl rfl]
    rfl

/-- C8: for operand expressions evaluating (in order, threading the
store) to integers `x` and `y` with `y ≠ 0`, the `/` form returns the
host's integer division — Python 2 floor division, `Int.fdiv` — and the
`mod` form returns the host's remainder — floor remainder, `Int.fmod`,
whose sign follows the divisor — and these satisfy
`x = (x / y) * y + (x mod y)`; both forms fail with the arity message
when given any number of arguments other than two. -/
theorem division_mod_floor_semantics :
    (∀ (f : Nat) (ex ey : SExp) (x y : Int) (env : Nat) (st st1 st2 : Store),
      evaluate f ex env st = (.ok (.int x), st1) →
      evaluate f ey env st1 = (.ok (.int y), st2) →
      y ≠ 0 →
      evaluate (f + 1) (.list [.symbol "/", ex, ey]) env st = (.ok (.int (Int.fdiv x y)), st2)
      ∧ evaluate (f + 1) (.list [.symbol "mod", ex, ey]) env st = (.ok (.int (Int.fmod x y)), st2)
      ∧ x = Int.fdiv x y * y + Int.fmod x y)
    ∧ (∀ (f : Nat) (args : List SExp) (env : Nat) (st : Store),
      args.length ≠ 2 →
      evaluate (f + 1) (.list (.symbol "/" :: args)) env st =
        (.error (.lisp "/ command expects exactly two arguments"), st)
      ∧ evaluate (f + 1) (.list (.symbol "mod" :: args)) env st =
        (.error (.lisp "mod command expects exactly two arguments"), st)) := by
  constructor
  · intro f ex ey x y env st st1 st2 hx hy hy0
    refine ⟨?_, ?_, ?_⟩
    · have b : evaluate (f + 1) (.list [.symbol "/", ex, ey]) env st
          = evalArithmeticCommand (fun a e s => evaluate f a e s) "/" [ex, ey] env st := rfl
      rw [b]
      simp [evalArithmeticCommand, hx, hy, toInt, hy0]
    · have b : evaluate (f + 1) (.list [.symbol "mod", ex, ey]) env st
          = evalArithmeticCommand (fun a e s => evaluate f a e s) "mod" [ex, ey] env st := rfl
      rw [b]
      simp [evalArithmeticCommand, hx, hy, toInt, hy0]
    · calc x = y * Int.fdiv x y + Int.fmod x y := (Int.fdiv_add_fmod x y).symm
        _ = Int.fdiv x y * y + Int.fmod x y := by ring
  · intro f args env st hlen
    constructor
    · have b : evaluate (f + 1) (.list (.symbol "/" :: args)) env st
          = evalArithmeticCommand (fun a e s => evaluate f a e s) "/" args env st := rfl
      rw [b]
      match args, hlen with
      | [], _ => rfl
      | [a], _ => rfl
      | [a, b], h => exact absurd rfl h
      | a :: b :: c :: r, _ => rfl
    · have b : evaluate (f + 1) (.list (.symbol "mod" :: args)) env st
          = evalArithmeticCommand (fun a e s => evaluate f a e s) "mod" args env st := rfl
      rw [b]
      match args, hlen with
      | [], _ => rfl
      | [a], _ => rfl
      | [a, b], h => exact absurd rfl h
      | a :: b :: c :: r, _ => rfl

/-- C8 (witness): `(/ -7 2)` evaluates to -4 and `(mod -7 2)` to 1 —
floor semantics — and -7 = -4 * 2 + 1; `(/ 5)` fails with the arity
message. -/
theorem division_mod_floor_semantics_witness :
    evaluate 2 (.list [.symbol "/", .int (-7), .int 2]) 0 [] = (.ok (.int (-4)), [])
    ∧ evaluate 2 (.list [.symbol "mod", .int (-7), .int 2]) 0 [] = (.ok (.int 1), [])
    ∧ evaluate 2 (.list [.symbol "/", .int 5]) 0 [] =
        (.error (.lisp "/ command expects exactly two arguments"), []) := by
  have h := division_mod_floor_semantics.1 1 (.int (-7)) (.int 2) (-7) 2 0 [] [] []
    rfl rfl (by decide)
  have h2 := division_mod_floor_semantics.2 1 [SExp.int 5] 0 [] (by decide)
  exact ⟨h.1, h.2.1, h2.1⟩

/-- C5 (counterexample): the claim quantifies over every expression `L`
that evaluates to a non-empty list.  With `x` bound to 0, `flipFlopList`
evaluates to the non-empty list `[1]`, yet the round-trip expression
fails: `[head, L]` evaluates `L` once (incrementing `x` to 1, yielding
`[1]`), and `[tail, L]` evaluates `L` a second time (incrementing `x` to
2, yielding `[]`), so `tail` is applied to an empty list and raises,
instead of returning a list equal to `[1]`. -/
theorem cons_head_tail_roundtrip_counterexample :
    (evaluate 10 flipFlopList 0 [⟨[("x", SExp.int 0)], none⟩]).1 = .ok (.list [.int 1])
    ∧ (evaluate 20 (roundTripOf flipFlopList) 0 [⟨[("x", SExp.int 0)], none⟩]).1
        = .error (.lisp "tail command expect non-empty list") := ⟨rfl, rfl⟩

/-- C5 (amended): for every expression `L` whose evaluation returns a
non-empty list value `v` and leaves the store unchanged (in particular
any quoted list literal), evaluating `[cons, [head, L], [tail, L]]`
returns a list equal to `v`: prepending the head of a non-empty list
onto its tail reconstructs the original list. -/
theorem cons_head_tail_roundtrip_pure (f : Nat) (L : SExp) (env : Nat) (st : Store)
    (v : List SExp) (h : evaluate f L env st = (.ok (.list v), st)) (hv : v ≠ []) :
    evaluate (f + 2) (roundTripOf L) env st = (.ok (.list v), st) := by
  cases v with
  | nil => exact absurd rfl hv
  | cons a t =>
      have hh : evaluate (f + 1) (.list [.symbol "head", L]) env st = (.ok a, st) := by
        have b : evaluate (f + 1) (.list [.symbol "head", L]) env st
            = evalHeadCommand (fun a e s => evaluate f a e s) [L] env st := rfl
        rw [b]
        simp [evalHeadCommand, h]
      have ht : evaluate (f + 1) (.list [.symbol "tail", L]) env st = (.ok (.list t), st) := by
        have b : evaluate (f + 1) (.list [.symbol "tail", L]) env st
            = evalTailCommand (fun a e s => evaluate f a e s) [L] env st := rfl
        rw [b]
        simp [evalTailCommand, h]
      have bc : evaluate (f + 2) (roundTripOf L) env st
          = evalConsCommand (fun a e s => evaluate (f + 1) a e s)
              [.list [.symbol "head", L], .list [.symbol "tail", L]] env st := rfl
      rw [bc]
      simp [evalConsCommand, hh, ht]

/-- C5 (witness of the amended claim): the quoted literal `[1, 2]` is
pure and non-empty, and its round-trip reconstructs `[1, 2]`. -/
theorem cons_head_tail_roundtrip_pure_witness :
    evaluate 4 (roundTripOf (.list [.symbol "quote", .list [.int 1, .int 2]])) 0
      [⟨[], none⟩] = (.ok (.list [.int 1, .int 2]), [⟨[], none⟩]) :=
  cons_head_tail_roundtrip_pure 2 (.list [.symbol "quote", .list [.int 1, .int 2]])
    0 [⟨[], none⟩] [.int 1, .int 2] rfl (by simp)

/-! ## Frame lemmas: evaluation in environment `e` never touches a
pre-existing environment other than `e`, and never changes any parent
link. -/

/-- The frame relation is reflexive. -/
theorem frame_refl (e : Nat) (st : Store) : Frame e st st :=
  ⟨Nat.le_refl _, fun _ _ _ => rfl, fun _ _ => rfl⟩

/-- The frame relation is transitive at a fixed environment. -/
theorem frame_trans {e : Nat} {st st1 st2 : Store}
    (h1 : Frame e st st1) (h2 : Frame e st1 st2) : Frame e st st2 := by
  obtain ⟨l1, g1, p1⟩ := h1
  obtain ⟨l2, g2, p2⟩ := h2
  refine ⟨Nat.le_trans l1 l2, ?_, ?_⟩
  · intro i hi hne
    rw [g2 i (Nat.lt_of_lt_of_le hi l1) hne, g1 i hi hne]
  · intro i hi
    rw [p2 i (Nat.lt_of_lt_of_le hi l1), p1 i hi]

/-- Appending fresh environments is a frame step for any environment. -/
theorem frame_append (e : Nat) (st : Store) (l : List Env) : Frame e st (st ++ l) := by
  refine ⟨by simp, ?_, ?_⟩
  · intro i hi _
    exact List.get?_append hi
  · intro i hi
    rw [List.get?_append hi]

/-- `storeSet` at `e` is a frame step at `e`: other entries are untouched
and the parent link of `e` itself survives. -/
theorem frame_storeSet (e : Nat) (st : Store) (s : String) (v : SExp) :
    Frame e st (storeSet st e s v) := by
  unfold storeSet
  rcases hg : st.get? e with _ | en
  · exact frame_refl _ _
  · refine ⟨by simp [List.length_set], ?_, ?_⟩
    · intro i hi hne
      exact List.get?_set_ne _ _ (Ne.symm hne)
    · intro i hi
      by_cases hie : i = e
      · subst hie
        rw [List.get?_set_eq, hg]
        rfl
      · rw [List.get?_set_ne _ _ (fun h => hie h.symm)]

/-- Composition across a closure call: a frame step at `e`, a fresh
environment appended, and an arbitrary frame step at the fresh id
together form a frame step at `e`. -/
theorem frame_compose_new {e : Nat} {st st1 st2 : Store} {ne : Env}
    (f1 : Frame e st st1) (f2 : Frame st1.length (st1 ++ [ne]) st2) :
    Frame e st st2 := by
  obtain ⟨l1, g1, p1⟩ := f1
  obtain ⟨l2, g2, p2⟩ := f2
  have key : ∀ i, i < st.length → st2.get? i = st1.get? i := by
    intro i hi
    have hi1 : i < st1.length := Nat.lt_of_lt_of_le hi l1
    have hia : i < (st1 ++ [ne]).length := by simp; omega
    rw [g2 i hia (Nat.ne_of_lt hi1), List.get?_append hi1]
  refine ⟨?_, ?_, ?_⟩
  · have : (st1 ++ [ne]).length ≤ st2.length := l2
    simp at this
    omega
  · intro i hi hne
    rw [key i hi, g1 i hi hne]
  · intro i hi
    rw [key i hi, p1 i hi]

/-- `evalQuoteCommand` never changes the store. -/
theorem frame_evalQuoteCommand (args : List SExp) (env : Nat) (st : Store) :
    Frame env st (evalQuoteCommand args env st).2 := by
  unfold evalQuoteCommand
  split <;> exact frame_refl _ _

/-- `evalAtomCommand` never changes the store. -/
theorem frame_evalAtomCommand (args : List SExp) (env : Nat) (st : Store) :
    Frame env st (evalAtomCommand args env st).2 := by
  unfold evalAtomCommand
  split <;> exact frame_refl _ _

/-- `evalEqCommand` respects the frame property. -/
theorem frame_evalEqCommand (ev : EvalFn) (hev : FrameEv ev) (args : List SExp)
    (env : Nat) (st : Store) : Frame env st (evalEqCommand ev args env st).2 := by
  match args with
  | [] => exact frame_refl _ _
  | [a] => exact frame_refl _ _
  | [a, b] =>
      have f1 := hev a env st
      rcases h1 : ev a env st with ⟨er | v1, st1⟩ <;> rw [h1] at f1
      · simp only [evalEqCommand, h1]
        exact f1
      · have f2 := hev b env st1
        rcases h2 : ev b env st1 with ⟨er2 | v2, st2⟩ <;> rw [h2] at f2 <;>
          simp only [evalEqCommand, h1, h2] <;> exact frame_trans f1 f2
  | a :: b :: c :: r => exact frame_refl _ _


/-- `evalIfCommand` respects the frame property. -/
theorem frame_evalIfCommand (ev : EvalFn) (hev : FrameEv ev) (args : List SExp)
    (env : Nat) (st : Store) : Frame env st (evalIfCommand ev args env st).2 := by
  match args with
  | [] => exact frame_refl _ _
  | [a] => exact frame_refl _ _
  | [a, b] => exact frame_refl _ _
  | [p, t, e] =>
      have f1 := hev p env st
      rcases h1 : ev p env st with ⟨er | pv, st1⟩ <;> rw [h1] at f1
      · simp only [evalIfCommand, h1]
        exact f1
      · simp only [evalIfCommand, h1]
        by_cases ht : truthy pv = true
      

        · rw [if_pos ht]
          exact frame_trans f1 (hev t env st1)
        · rw [if_neg ht]
          exact frame_trans f1 (hev e env st1)
  | a :: b :: c :: d :: r => exact frame_refl _ _

/-- `evalDefineCommand` respects the frame property: the evaluation of
the right-hand side is a frame step and the binding itself touches only
the current environment's local bindings. -/
theorem frame_evalDefineCommand (ev : EvalFn) (hev : FrameEv ev) (args : List SExp)
    (env : Nat) (st : Store) : Frame env st (evalDefineCommand ev args env st).2 := by
  match args with
  | [] => exact frame_refl _ _
  | [a] => exact frame_refl _ _
  | [a, e] =>
      match a with
      | .symbol name =>
          have f1 := hev e env st
          rcases h1 : ev e env st with ⟨er | v, st1⟩ <;> rw [h1] at f1
          · simp only [evalDefineCommand, h1]
            exact f1
          · simp only [evalDefineCommand, h1]
            exact frame_trans f1 (frame_storeSet env st1 name v)
      | .int n => exact frame_refl _ _
      | .bool b => exact frame_refl _ _
      | .list l => exact frame_refl _ _
      | .closure x y z => exact frame_refl _ _
      | .noneVal => exact frame_refl _ _
  | a :: b :: c :: r => exact frame_refl _ _

/-- `evalPrintCommand` respects the frame property. -/
theorem frame_evalPrintCommand (ev : EvalFn) (hev : FrameEv ev) (args : List SExp)
    (env : Nat) (st : Store) : Frame env st (evalPrintCommand ev args env st).2 := by
  match args with
  | [] => exact frame_refl _ _
  | [a] =>
      simp only [evalPrintCommand]
      exact hev a env st
  | a :: b :: r => exact frame_refl _ _

/-- `evalArithmeticCommand` respects the frame property. -/
theorem frame_evalArithmeticCommand (ev : EvalFn) (hev : FrameEv ev) (command : String)
    (args : List SExp) (env : Nat) (st : Store) :
    Frame env st (evalArithmeticCommand ev command args env st).2 := by
  match args with
  | [] => exact frame_refl _ _
  | [a] => exact frame_refl _ _
  | [a, b] =>
      have f1 := hev a env st
      rcases h1 : ev a env st with ⟨er | v1, st1⟩ <;> rw [h1] at f1
      · simp only [evalArithmeticCommand, h1]
        exact f1
      · rcases ht1 : toInt v1 with er | x
        · simp only [evalArithmeticCommand, h1, ht1]
          exact f1
        · have f2 := hev b env st1
          rcases h2 : ev b env st1 with ⟨er2 | v2, st2⟩ <;> rw [h2] at f2
          · simp only [evalArithmeticCommand, h1, ht1, h2]
            exact frame_trans f1 f2
          · rcases ht2 : toInt v2 with er | y <;>
              simp only [evalArithmeticCommand, h1, ht1, h2, ht2]
            · exact frame_trans f1 f2
            · repeat' split
              all_goals exact frame_trans f1 f2
  | a :: b :: c :: r => exact frame_refl _ _

/-- `evalLambdaCommand` respects the frame property. -/
theorem frame_evalLambdaCommand (ev : EvalFn) (hev : FrameEv ev) (args : List SExp)
    (env : Nat) (st : Store) : Frame env st (evalLambdaCommand ev args env st).2 := by
  match args with
  | [] => exact frame_refl _ _
  | [a] => exact frame_refl _ _
  | [p, body] =>
      match p with
      | .list ps =>
          simp only [evalLambdaCommand]
          by_cases hp : ps.isEmpty = true
          · rw [if_pos hp]
            exact hev body env st
          · rw [if_neg hp]
            exact frame_refl _ _
      | .int n => exact frame_refl _ _
      | .bool b => exact frame_refl _ _
      | .symbol s => exact frame_refl _ _
      | .closure x y z => exact frame_refl _ _
      | .noneVal => exact frame_refl _ _
  | a :: b :: c :: r => exact frame_refl _ _

/-- `evalArgs` respects the frame property. -/
theorem frame_evalArgs (ev : EvalFn) (hev : FrameEv ev) (args : List SExp)
    (env : Nat) (st : Store) : Frame env st (evalArgs ev args env st).2 := by
  induction args generalizing st with
  | nil => exact frame_refl _ _
  | cons a rest ih =>
      have f1 := hev a env st
      rcases h1 : ev a env st with ⟨er | v, st1⟩ <;> rw [h1] at f1
      · simp only [evalArgs, h1]
        exact f1
      · have f2 := ih st1
        rcases h2 : evalArgs ev rest env st1 with ⟨er2 | vs, st2⟩ <;> rw [h2] at f2 <;>
          simp only [evalArgs, h1, h2] <;> exact frame_trans f1 f2

/-- `evalClosure` respects the frame property: arguments are evaluated in
the caller environment (a frame step there), and the body runs in a fresh
environment, which can only touch that fresh environment and newer ones. -/
theorem frame_evalClosure (ev : EvalFn) (hev : FrameEv ev) (c : SExp)
    (params : List SExp) (env : Nat) (st : Store) :
    Frame env st (evalClosure ev c params env st).2 := by
  match c with
  | .int n => exact frame_refl _ _
  | .bool b => exact frame_refl _ _
  | .symbol s => exact frame_refl _ _
  | .list l => exact frame_refl _ _
  | .noneVal => exact frame_refl _ _
  | .closure cenv cparams body =>
      simp only [evalClosure]
      by_cases hl : cparams.length ≠ params.length
      · rw [if_pos hl]
        exact frame_refl _ _
      · rw [if_neg hl]
        have f1 := frame_evalArgs ev hev params env st
        rcases h1 : evalArgs ev params env st with ⟨er | vs, st1⟩ <;> rw [h1] at f1
        · exact f1
        · have f2 := hev body st1.length (st1 ++ [⟨dictOfZip cparams vs, some cenv⟩])
          exact frame_compose_new f1 f2

/-- `evalConsCommand` respects the frame property. -/
theorem frame_evalConsCommand (ev : EvalFn) (hev : FrameEv ev) (args : List SExp)
    (env : Nat) (st : Store) : Frame env st (evalConsCommand ev args env st).2 := by
  match args with
  | [] => exact frame_refl _ _
  | [a] => exact frame_refl _ _
  | [a, b] =>
      have f1 := hev a env st
      rcases h1 : ev a env st with ⟨er | v1, st1⟩ <;> rw [h1] at f1
      · simp only [evalConsCommand, h1]
        exact f1
      · have f2 := hev b env st1
        rcases h2 : ev b env st1 with ⟨er2 | v2, st2⟩ <;> rw [h2] at f2
        · simp only [evalConsCommand, h1, h2]
          exact frame_trans f1 f2
        · simp only [evalConsCommand, h1, h2]
          match v2 with
          | .list l => exact frame_trans f1 f2
          | .int n => exact frame_trans f1 f2
          | .bool bb => exact frame_trans f1 f2
          | .symbol s => exact frame_trans f1 f2
          | .closure x y z => exact frame_trans f1 f2
          | .noneVal => exact frame_trans f1 f2
  | a :: b :: c :: r => exact frame_refl _ _

/-- `evalHeadCommand` respects the frame property. -/
theorem frame_evalHeadCommand (ev : EvalFn) (hev : FrameEv ev) (args : List SExp)
    (env : Nat) (st : Store) : Frame env st (evalHeadCommand ev args env st).2 := by
  match args with
  | [] => exact frame_refl _ _
  | [a] =>
      have f1 := hev a env st
      rcases h1 : ev a env st with ⟨er | v, st1⟩ <;> rw [h1] at f1
      · simp only [evalHeadCommand, h1]
        exact f1
      · simp only [evalHeadCommand, h1]
        match v with
        | .list [] => exact f1
        | .list (h :: t) => exact f1
        | .int n => exact f1
        | .bool b => exact f1
        | .symbol s => exact f1
        | .closure x y z => exact f1
        | .noneVal => exact f1
  | a :: b :: r => exact frame_refl _ _

/-- `evalTailCommand` respects the frame property. -/
theorem frame_evalTailCommand (ev : EvalFn) (hev : FrameEv ev) (args : List SExp)
    (env : Nat) (st : Store) : Frame env st (evalTailCommand ev args env st).2 := by
  match args with
  | [] => exact frame_refl _ _
  | [a] =>
      have f1 := hev a env st
      rcases h1 : ev a env st with ⟨er | v, st1⟩ <;> rw [h1] at f1
      · simp only [evalTailCommand, h1]
        exact f1
      · simp only [evalTailCommand, h1]
        match v with
        | .list [] => exact f1
        | .list (h :: t) => exact f1
        | .int n => exact f1
        | .bool b => exact f1
        | .symbol s => exact f1
        | .closure x y z => exact f1
        | .noneVal => exact f1
  | a :: b :: r => exact frame_refl _ _

/-- `evalEmptyCommand` respects the frame property. -/
theorem frame_evalEmptyCommand (ev : EvalFn) (hev : FrameEv ev) (args : List SExp)
    (env : Nat) (st : Store) : Frame env st (evalEmptyCommand ev args env st).2 := by
  match args with
  | [] => exact frame_refl _ _
  | [a] =>
      have f1 := hev a env st
      rcases h1 : ev a env st with ⟨er | v, st1⟩ <;> rw [h1] at f1
      · simp only [evalEmptyCommand, h1]
        exact f1
      · simp only [evalEmptyCommand, h1]
        match v with
        | .list l => exact f1
        | .int n => exact f1
        | .bool b => exact f1
        | .symbol s => exact f1
        | .closure x y z => exact f1
        | .noneVal => exact f1
  | a :: b :: r => exact frame_refl _ _

/-- `evalListCommand` respects the frame property. -/
theorem frame_evalListCommand (ev : EvalFn) (hev : FrameEv ev) (command : String)
    (args : List SExp) (env : Nat) (st : Store) :
    Frame env st (evalListCommand ev command args env st).2 := by
  unfold evalListCommand
  repeat' split
  · exact frame_evalConsCommand ev hev args env st
  · exact frame_evalHeadCommand ev hev args env st
  · exact frame_evalTailCommand ev hev args env st
  · exact frame_evalEmptyCommand ev hev args env st
  · exact frame_refl _ _

/-- `evalCommand` respects the frame property. -/
theorem frame_evalCommand (ev : EvalFn) (hev : FrameEv ev) (command : String)
    (args : List SExp) (env : Nat) (st : Store) :
    Frame env st (evalCommand ev command args env st).2 := by
  unfold evalCommand
  repeat' split
  · exact frame_evalQuoteCommand args env st
  · exact frame_evalAtomCommand args env st
  · exact frame_evalEqCommand ev hev args env st
  · exact frame_evalIfCommand ev hev args env st
  · exact frame_evalDefineCommand ev hev args env st
  · exact frame_evalLambdaCommand ev hev args env st
  · exact frame_evalPrintCommand ev hev args env st
  · exact frame_evalArithmeticCommand ev hev command args env st
  · exact frame_evalListCommand ev hev command args env st
  · exact frame_refl _ _

/-- `evalBody` respects the frame property when the recursive evaluator
does. -/
theorem frame_evalBody (ev : EvalFn) (hev : FrameEv ev) (ast : SExp)
    (env : Nat) (st : Store) : Frame env st (evalBody ev ast env st).2 := by
  match ast with
  | .symbol s =>
      rcases hl : lookupEnv st st.length env s with _ | v <;>
        simp only [evalBody, hl] <;> exact frame_refl _ _
  | .bool b => exact frame_refl _ _
  | .int n => exact frame_refl _ _
  | .noneVal => exact frame_refl _ _
  | .closure x y z => exact frame_evalClosure ev hev _ [] env st
  | .list [] => exact frame_refl _ _
  | .list (first :: rest) =>
      match first with
      | .symbol s =>
          simp only [evalBody]
          by_cases hc : commands.contains s = true
          · rw [if_pos hc]
            exact frame_evalCommand ev hev s rest env st
          · rw [if_neg hc]
            rcases hl : lookupEnv st st.length env s with _ | func <;>
              simp only [hl]
            · exact frame_refl _ _
            · by_cases hf : is_closure func = true
              · rw [if_pos hf]
                exact hev _ env st
              · rw [if_neg hf]
                exact frame_refl _ _
      | .closure x y z =>
          exact frame_evalClosure ev hev _ rest env st
      | .int n =>
          have f1 := hev (.int n) env st
          rcases h1 : ev (.int n) env st with ⟨er | v, st1⟩ <;> rw [h1] at f1
          · simp only [evalBody, h1]
            exact f1
          · simp only [evalBody, h1]
            by_cases hf : is_closure v = true
            · rw [if_pos hf]
              exact frame_trans f1 (frame_evalClosure ev hev _ rest env st1)
            · rw [if_neg hf]
              by_cases hr : rest.isEmpty = true
              · rw [if_pos hr]
                exact f1
              · rw [if_neg hr]
                exact frame_trans f1 (hev _ env st1)
      | .bool b =>
          have f1 := hev (.bool b) env st
          rcases h1 : ev (.bool b) env st with ⟨er | v, st1⟩ <;> rw [h1] at f1
          · simp only [evalBody, h1]
            exact f1
          · simp only [evalBody, h1]
            by_cases hf : is_closure v = true
            · rw [if_pos hf]
              exact frame_trans f1 (frame_evalClosure ev hev _ rest env st1)
            · rw [if_neg hf]
              by_cases hr : rest.isEmpty = true
              · rw [if_pos hr]
                exact f1
              · rw [if_neg hr]
                exact frame_trans f1 (hev _ env st1)
      | .list l =>
          have f1 := hev (.list l) env st
          rcases h1 : ev (.list l) env st with ⟨er | v, st1⟩ <;> rw [h1] at f1
          · simp only [evalBody, h1]
            exact f1
          · simp only [evalBody, h1]
            by_cases hf : is_closure v = true
            · rw [if_pos hf]
              exact frame_trans f1 (frame_evalClosure ev hev _ rest env st1)
            · rw [if_neg hf]
              by_cases hr : rest.isEmpty = true
              · rw [if_pos hr]
                exact f1
              · rw [if_neg hr]
                exact frame_trans f1 (hev _ env st1)
      | .noneVal =>
          have f1 := hev SExp.noneVal env st
          rcases h1 : ev SExp.noneVal env st with ⟨er | v, st1⟩ <;> rw [h1] at f1
          · simp only [evalBody, h1]
            exact f1
          · simp only [evalBody, h1]
            by_cases hf : is_closure v = true
            · rw [if_pos hf]
              exact frame_trans f1 (frame_evalClosure ev hev _ rest env st1)
            · rw [if_neg hf]
              by_cases hr : rest.isEmpty = true
              · rw [if_pos hr]
                exact f1
              · rw [if_neg hr]
                exact frame_trans f1 (hev _ env st1)

/-- The fuel-indexed evaluator respects the frame property at every fuel:
an evaluation in environment `e` leaves every other pre-existing
environment untouched and preserves all parent links. -/
theorem frame_evaluate (f : Nat) : FrameEv (evaluate f) := by
  induction f with
  | zero => intro a e st; exact frame_refl _ _
  | succ n ih =>
      intro a e st
      exact frame_evalBody (fun a e s => evaluate n a e s) ih a e st

/-- C7: evaluating `[define, s, e]` evaluates `e` in the current
environment and binds `s` to the result in that environment's own local
bindings only — `storeSet` touches no other store entry and keeps even
the current environment's parent link — and returns the null sentinel;
end to end, every pre-existing environment other than the current one
(in particular every parent) is left with exactly the same bindings; and
when the first argument is not a Symbol the form fails with the type
error before evaluating anything, leaving the store untouched. -/
theorem define_binds_locally :
    (∀ (f : Nat) (s : String) (e : SExp) (env : Nat) (st : Store),
      evaluate (f + 1) (.list [.symbol "define", .symbol s, e]) env st =
        match evaluate f e env st with
        | (.ok v, st1) => (.ok SExp.noneVal, storeSet st1 env s v)
        | (.error er, st1) => (.error er, st1))
    ∧ (∀ (st : Store) (env : Nat) (s : String) (v : SExp),
      (∀ i, i ≠ env → (storeSet st env s v).get? i = st.get? i)
      ∧ (storeSet st env s v).length = st.length
      ∧ ((storeSet st env s v).get? env).map Env.parent
          = (st.get? env).map Env.parent)
    ∧ (∀ (f : Nat) (s : String) (e : SExp) (env : Nat) (st : Store)
        (r : Except Err SExp) (st2 : Store),
      evaluate (f + 1) (.list [.symbol "define", .symbol s, e]) env st = (r, st2) →
      ∀ i, i < st.length → i ≠ env → st2.get? i = st.get? i)
    ∧ (∀ (f : Nat) (a e : SExp) (env : Nat) (st : Store), is_symbol a = false →
      evaluate (f + 1) (.list [.symbol "define", a, e]) env st =
        (.error (.lisp "define command expects a symbol as parameter 1"), st)) := by
  have hdef : ∀ (f : Nat) (s : String) (e : SExp) (env : Nat) (st : Store),
      evaluate (f + 1) (.list [.symbol "define", .symbol s, e]) env st =
        match evaluate f e env st with
        | (.ok v, st1) => (.ok SExp.noneVal, storeSet st1 env s v)
        | (.error er, st1) => (.error er, st1) := by
    intro f s e env st
    have b : evaluate (f + 1) (.list [.symbol "define", .symbol s, e]) env st
        = evalDefineCommand (fun a e2 s2 => evaluate f a e2 s2) [.symbol s, e] env st := rfl
    rw [b]
    rcases h1 : evaluate f e env st with ⟨er | v, st1⟩ <;>
      simp only [evalDefineCommand, h1]
  have hloc : ∀ (st : Store) (env : Nat) (s : String) (v : SExp),
      (∀ i, i ≠ env → (storeSet st env s v).get? i = st.get? i)
      ∧ (storeSet st env s v).length = st.length
      ∧ ((storeSet st env s v).get? env).map Env.parent
          = (st.get? env).map Env.parent := by
    intro st env s v
    unfold storeSet
    rcases hg : st.get? env with _ | en
    · exact ⟨fun i _ => rfl, rfl, by simp only [hg]⟩
    · refine ⟨?_, by simp [List.length_set], ?_⟩
      · intro i hi
        exact List.get?_set_ne _ _ (Ne.symm hi)
      · rw [List.get?_set_eq, hg]
        rfl
  refine ⟨hdef, hloc, ?_, ?_⟩
  · intro f s e env st r st2 heq i hi hne
    rw [hdef f s e env st] at heq
    have fr := frame_evaluate f e env st
    rcases h1 : evaluate f e env st with ⟨er | v, st1⟩ <;> rw [h1] at heq fr
    · cases heq
      exact fr.2.1 i hi hne
    · cases heq
      rw [(hloc st1 env s v).1 i hne]
      exact fr.2.1 i hi hne
  · intro f a e env st ha
    match a, ha with
    | .int n, _ => rfl
    | .bool b, _ => rfl
    | .list l, _ => rfl
    | .closure x y z, _ => rfl
    | .noneVal, _ => rfl

/-- C7 (witness): in a child environment (id 1, parent 0),
`[define, x, 5]` binds `x` locally and returns the null sentinel, the
parent environment 0 is untouched, and a non-symbol first argument fails
with the type error leaving the store unchanged. -/
theorem define_binds_locally_witness :
    evaluate 2 (.list [.symbol "define", .symbol "x", .int 5]) 1
      [⟨[("y", SExp.int 0)], none⟩, ⟨[], some 0⟩] =
      (.ok SExp.noneVal, [⟨[("y", SExp.int 0)], none⟩, ⟨[("x", SExp.int 5)], some 0⟩])
    ∧ (evaluate 2 (.list [.symbol "define", .symbol "x", .int 5]) 1
        [⟨[("y", SExp.int 0)], none⟩, ⟨[], some 0⟩]).2.get? 0
      = some ⟨[("y", SExp.int 0)], none⟩
    ∧ evaluate 2 (.list [.symbol "define", .int 3, .int 5]) 1
        [⟨[("y", SExp.int 0)], none⟩, ⟨[], some 0⟩] =
      (.error (.lisp "define command expects a symbol as parameter 1"),
        [⟨[("y", SExp.int 0)], none⟩, ⟨[], some 0⟩]) := by
  refine ⟨?_, ?_, ?_⟩
  · rw [define_binds_locally.1 1 "x" (.int 5) 1 [⟨[("y", SExp.int 0)], none⟩, ⟨[], some 0⟩]]
    rfl
  · have h := define_binds_locally.2.2.1 1 "x" (.int 5) 1
      [⟨[("y", SExp.int 0)], none⟩, ⟨[], some 0⟩]
      (evaluate 2 (.list [.symbol "define", .symbol "x", .int 5]) 1
        [⟨[("y", SExp.int 0)], none⟩, ⟨[], some 0⟩]).1
      (evaluate 2 (.list [.symbol "define", .symbol "x", .int 5]) 1
        [⟨[("y", SExp.int 0)], none⟩, ⟨[], some 0⟩]).2
      rfl 0 (by decide) (by decide)
    rw [h]
    rfl
  · exact define_binds_locally.2.2.2 1 (.int 3) (.int 5) 1
      [⟨[("y", SExp.int 0)], none⟩, ⟨[], some 0⟩] rfl
